import Mathlib

/-!
# Verification of the Young's modulus calculator

A shallow embedding of `src/main.py` (a Young's modulus calculator for rod
materials) together with theorems checking the specification's claims
against it.

Conventions of the embedding:
* Python numbers are modelled as exact rationals `ℚ`.
* A Python division that can raise `ZeroDivisionError` is modelled by
  `pyDiv`, which returns `none` exactly when the denominator is zero;
  divisions by nonzero literal constants (1000, 100, 12, 1e8, 1e9, a list
  length guarded to be nonzero) are modelled by total field division.
* Functions that can raise therefore return `Option`; `none` models an
  uncaught `ZeroDivisionError`.
-/

namespace YoungsModulus

/-- A measurement reading, as built by `get_readings` in `src/main.py`:
reading number, applied weight in grams, and the (signed) depression in cm. -/
structure Reading where
  reading_num : ℕ
  weight : ℚ
  depression : ℚ
deriving DecidableEq

/-- One material entry of `MATERIAL_DATABASE`: display name, reference
Young's modulus in GPa, density in g/cm³. -/
structure Material where
  name : String
  youngs_modulus : ℚ
  density : ℚ
deriving DecidableEq

/-- The `MATERIAL_DATABASE` dict of `src/main.py`, in insertion order
(Python dicts preserve insertion order), as key/entry pairs. -/
def MATERIAL_DATABASE : List (String × Material) :=
  [ ("iron", ⟨"Iron", 210, 787/100⟩),
    ("steel", ⟨"Steel (Mild)", 200, 785/100⟩),
    ("stainless_steel", ⟨"Stainless Steel", 190, 8⟩),
    ("aluminum", ⟨"Aluminum", 69, 270/100⟩),
    ("copper", ⟨"Copper", 130, 896/100⟩),
    ("brass", ⟨"Brass", 100, 850/100⟩),
    ("oak_wood", ⟨"Oak Wood", 11, 75/100⟩),
    ("pine_wood", ⟨"Pine Wood", 9, 55/100⟩),
    ("teak_wood", ⟨"Teak Wood", 12, 65/100⟩),
    ("bamboo", ⟨"Bamboo", 20, 60/100⟩),
    ("plywood", ⟨"Plywood", 6, 55/100⟩),
    ("pvc", ⟨"PVC", 3, 140/100⟩),
    ("acrylic", ⟨"Acrylic", 16/5, 118/100⟩) ]

/-- The accepting branch of one iteration of the input loop in
`get_material_choice`: a choice `1 ≤ choice ≤ len(MATERIAL_DATABASE)`
returns the pair `(material_key, MATERIAL_DATABASE[material_key])` at the
1-based position `choice`; any other integer is rejected (`none`, the loop
re-prompts / the catalog contract reports `OutOfRange`). -/
def get_material_choice (choice : ℤ) : Option (String × Material) :=
  if 1 ≤ choice ∧ choice ≤ (MATERIAL_DATABASE.length : ℤ) then
    MATERIAL_DATABASE.get? (choice - 1).toNat
  else none

/-- `calculate_moment_of_inertia` from `src/main.py`:
`I = (breadth * width**3) / 12`, in cm⁴. -/
def calculate_moment_of_inertia (breadth width : ℚ) : ℚ :=
  breadth * width ^ 3 / 12

/-- The gravitational constant 9.81 used in `src/main.py`. -/
def g_accel : ℚ := 981/100

/-- Python division: raises `ZeroDivisionError` (here: `none`) when the
denominator is zero. -/
def pyDiv (a b : ℚ) : Option ℚ := if b = 0 then none else some (a / b)

/-- The body of the `if depression_m != 0` branch of the loop in
`calculate_youngs_modulus_uniform`: per-reading modulus in GPa, `none` if a
division raises. -/
def uniform_reading_modulus (length breadth width : ℚ) (r : Reading) : Option ℚ :=
  let I := calculate_moment_of_inertia breadth width
  let weight_kg := r.weight / 1000
  let force_N := weight_kg * g_accel
  let depression_m := r.depression / 100
  let length_m := length / 100
  let I_m4 := I / 100000000
  (pyDiv force_N length_m).bind fun w =>
    (pyDiv (5 * w * length_m ^ 4) (384 * I_m4 * |depression_m|)).map fun Y =>
      Y / 1000000000

/-- The body of the `if depression_m != 0` branch of the loop in
`calculate_youngs_modulus_nonuniform`: per-reading modulus in GPa. -/
def nonuniform_reading_modulus (length breadth width : ℚ) (r : Reading) : Option ℚ :=
  let I := calculate_moment_of_inertia breadth width
  let weight_kg := r.weight / 1000
  let force_N := weight_kg * g_accel
  let depression_m := r.depression / 100
  let length_m := length / 100
  let I_m4 := I / 100000000
  (pyDiv (force_N * length_m ^ 3) (48 * I_m4 * |depression_m|)).map fun Y =>
    Y / 1000000000

/-- The `youngs_moduli` list accumulated by the loop of
`calculate_youngs_modulus_uniform`: readings with `depression_m != 0`
contribute their per-reading modulus, the others are skipped. -/
def uniform_moduli (length breadth width : ℚ) : List Reading → Option (List ℚ)
  | [] => some []
  | r :: rs =>
    if r.depression / 100 ≠ 0 then
      (uniform_reading_modulus length breadth width r).bind fun y =>
        (uniform_moduli length breadth width rs).map fun ys => y :: ys
    else
      uniform_moduli length breadth width rs

/-- The `youngs_moduli` list accumulated by the loop of
`calculate_youngs_modulus_nonuniform`. -/
def nonuniform_moduli (length breadth width : ℚ) : List Reading → Option (List ℚ)
  | [] => some []
  | r :: rs =>
    if r.depression / 100 ≠ 0 then
      (nonuniform_reading_modulus length breadth width r).bind fun y =>
        (nonuniform_moduli length breadth width rs).map fun ys => y :: ys
    else
      nonuniform_moduli length breadth width rs

/-- `calculate_youngs_modulus_uniform` from `src/main.py`:
`sum(youngs_moduli) / len(youngs_moduli) if youngs_moduli else 0`. -/
def calculate_youngs_modulus_uniform (length breadth width : ℚ)
    (readings : List Reading) : Option ℚ :=
  (uniform_moduli length breadth width readings).map fun ys =>
    if ys = [] then 0 else ys.sum / ys.length

/-- `calculate_youngs_modulus_nonuniform` from `src/main.py`. -/
def calculate_youngs_modulus_nonuniform (length breadth width : ℚ)
    (readings : List Reading) : Option ℚ :=
  (nonuniform_moduli length breadth width readings).map fun ys =>
    if ys = [] then 0 else ys.sum / ys.length

/-! ## Spec-side descriptions (for refinement comparisons)

These definitions follow the wording of the specification ("for each reading
with nonzero deflection … average over all included readings; if none
qualify, result is defined as 0") and are compared with the embedding of the
source above. -/

/-- Spec-side per-reading uniform-bending modulus in GPa:
`Y = 5·w·length_m⁴ / (384 · I_m4 · |deflection_m|)` Pa, divided by 1e9, with
`force = (weight_g/1000)·9.81`, `length_m = length_cm/100`,
`I_m4 = I_cm4/1e8`, `w = force/length_m` (total field arithmetic). -/
def specUniformY (length breadth width : ℚ) (r : Reading) : ℚ :=
  let I := calculate_moment_of_inertia breadth width
  let force_N := r.weight / 1000 * g_accel
  let depression_m := r.depression / 100
  let length_m := length / 100
  let I_m4 := I / 100000000
  let w := force_N / length_m
  5 * w * length_m ^ 4 / (384 * I_m4 * |depression_m|) / 1000000000

/-- Spec-side per-reading point-load modulus in GPa:
`Y = force_N · length_m³ / (48 · I_m4 · |deflection_m|)` Pa, divided by 1e9. -/
def specPointY (length breadth width : ℚ) (r : Reading) : ℚ :=
  let I := calculate_moment_of_inertia breadth width
  let force_N := r.weight / 1000 * g_accel
  let depression_m := r.depression / 100
  let length_m := length / 100
  let I_m4 := I / 100000000
  force_N * length_m ^ 3 / (48 * I_m4 * |depression_m|) / 1000000000

/-- The readings that qualify for averaging: those with nonzero deflection. -/
def nonzeroDeflection (rs : List Reading) : List Reading :=
  rs.filter fun r => decide (r.depression ≠ 0)

/-- Arithmetic mean of a list of rationals, defined as 0 on the empty list. -/
def average (l : List ℚ) : ℚ := if l = [] then 0 else l.sum / l.length

/-! ## The report renderer's comparison block (`display_results`) -/

/-- Lines 344–346 of `display_results`: the percentage difference is printed
only under the guard `material['youngs_modulus'] != 0`; `none` means the
line is not displayed (no exception is possible here). -/
def percent_difference_display (calculated ref : ℚ) : Option ℚ :=
  if ref ≠ 0 then some (|calculated - ref| / ref * 100) else none

/-- Lines 352–357 of `display_results`: the verdict
`abs(calculated_modulus - material['youngs_modulus']) / material['youngs_modulus'] < 0.2`
with NO zero guard; `some true` = "consistent with expected values",
`some false` = "differs significantly" (with the fixed note), `none` =
`ZeroDivisionError`. -/
def analysis_verdict (calculated ref : ℚ) : Option Bool :=
  (pyDiv |calculated - ref| ref).map fun x => decide (x < 1/5)

/-- The comparison block of `display_results` as a whole: the optionally
displayed percentage difference together with the verdict; `none` when the
rendering dies with `ZeroDivisionError` (which can only come from the
verdict line). -/
def display_comparison (calculated ref : ℚ) : Option (Option ℚ × Bool) :=
  (analysis_verdict calculated ref).map fun v => (percent_difference_display calculated ref, v)

/-- Lines 314–332 of `display_results`: one row of the readings table,
`(reading_num, weight, depression, individual Y in GPa)`; the individual
modulus is 0 for a zero-deflection reading, and `none` models a
`ZeroDivisionError` inside the row computation. -/
def display_row (bending_type : ℕ) (length breadth width : ℚ) (r : Reading) :
    Option (ℕ × ℚ × ℚ × ℚ) :=
  let I := calculate_moment_of_inertia breadth width
  let weight_kg := r.weight / 1000
  let force_N := weight_kg * g_accel
  let depression_m := r.depression / 100
  let length_m := length / 100
  let I_m4 := I / 100000000
  if depression_m ≠ 0 then
    (if bending_type = 1 then
      (pyDiv force_N length_m).bind fun w =>
        pyDiv (5 * w * length_m ^ 4) (384 * I_m4 * |depression_m|)
    else
      pyDiv (force_N * length_m ^ 3) (48 * I_m4 * |depression_m|)).map fun Y =>
      (r.reading_num, r.weight, r.depression, Y / 1000000000)
  else
    some (r.reading_num, r.weight, r.depression, 0)

/-- Replace a reading's deflection by its negation (elevation instead of
depression), keeping number and weight. -/
def negate_deflection (r : Reading) : Reading :=
  ⟨r.reading_num, r.weight, -r.depression⟩

/-! ## The abbreviated file report (lines 412–415 of `main`)

The file report writes one line per reading,
`  {reading_num}: Weight={weight}g, Depression={depression}cm`.
Python renders the numbers with `str`; since the embedding replaces floats
by exact rationals, numerals are rendered through an exact decimal-digit
printer for naturals and the canonical `num/den` form for rationals. -/

/-- The character of a decimal digit `d < 10`. -/
def digitChar (d : ℕ) : Char := Char.ofNat (48 + d)

/-- Decimal digits of `n`, most significant first (empty for 0). -/
def natChars (n : ℕ) : List Char := ((Nat.digits 10 n).map digitChar).reverse

/-- Decimal rendering of a natural number. -/
def printNat (n : ℕ) : List Char := if n = 0 then ['0'] else natChars n

/-- Decimal rendering of an integer, with a leading minus sign when negative. -/
def printInt (z : ℤ) : List Char :=
  if z < 0 then '-' :: printNat z.natAbs else printNat z.toNat

/-- Exact rendering of a rational: the integer numerator, followed by
`/den` when the (reduced) denominator is not 1. -/
def printRat (q : ℚ) : List Char :=
  if q.den = 1 then printInt q.num else printInt q.num ++ '/' :: printNat q.den

/-- One reading line of the file report:
`  {reading_num}: Weight={weight}g, Depression={depression}cm`. -/
def render_reading_line (r : Reading) : List Char :=
  "  ".toList ++ printNat r.reading_num ++ ": Weight=".toList ++ printRat r.weight
    ++ "g, Depression=".toList ++ printRat r.depression ++ "cm".toList

/-- The `Readings:` block of the file report, one line per reading, in order. -/
def render_readings (rs : List Reading) : List (List Char) :=
  rs.map render_reading_line

/-- Numeric value of a digit character. -/
def charVal (c : Char) : ℕ := c.toNat - 48

/-- Read back a natural number from its decimal digit characters. -/
def parseNat (cs : List Char) : ℕ := Nat.ofDigits 10 ((cs.map charVal).reverse)

/-- Read back an integer: a leading `-` negates. -/
def parseInt (cs : List Char) : ℤ :=
  if cs.head? = some '-' then -(parseNat cs.tail : ℤ) else (parseNat cs : ℤ)

/-- Read back a rational from `num` or `num/den` form. -/
def parseRat (cs : List Char) : ℚ :=
  let numPart := cs.takeWhile fun c => c ≠ '/'
  let denPart := (cs.dropWhile fun c => c ≠ '/').tail
  if denPart = [] then (parseInt numPart : ℚ)
  else (parseInt numPart : ℚ) / (parseNat denPart : ℚ)

/-- Characters that can occur in a rendered numeral: `-`, `.`, `/` and the
decimal digits (codes 45–57). -/
def numChar (c : Char) : Bool := 45 ≤ c.toNat && c.toNat ≤ 57

/-- Re-parse one reading line of the file report: the numeral after the
first `=` (up to the `g` unit) is the weight, the numeral after the second
`=` (up to the `cm` unit) is the depression; `none` when either numeral is
missing. -/
def parse_reading_line (cs : List Char) : Option (ℚ × ℚ) :=
  let afterEq1 := (cs.dropWhile fun c => c ≠ '=').tail
  let wChars := afterEq1.takeWhile numChar
  let rest := afterEq1.dropWhile numChar
  let afterEq2 := (rest.dropWhile fun c => c ≠ '=').tail
  let dChars := afterEq2.takeWhile numChar
  if wChars = [] ∨ dChars = [] then none
  else some (parseRat wChars, parseRat dChars)

/-! ## The save decision (lines 398–417 of `main`) -/

/-- Python `str.isspace` on the ASCII whitespace characters relevant to
`str.strip()` with no argument. -/
def pyIsSpace (c : Char) : Bool :=
  c == ' ' || c == '\t' || c == '\n' || c == '\r' || c == '\x0b' || c == '\x0c'

/-- Python `str.strip()`: remove leading and trailing whitespace. -/
def pyStrip (cs : List Char) : List Char :=
  ((cs.dropWhile pyIsSpace).reverse.dropWhile pyIsSpace).reverse

/-- Python `str.lower()` on one character (ASCII range, which covers the
accepted answers). -/
def pyLowerChar (c : Char) : Char :=
  if 'A' ≤ c ∧ c ≤ 'Z' then Char.ofNat (c.toNat + 32) else c

/-- Python `str.lower()`. -/
def pyLower (cs : List Char) : List Char := cs.map pyLowerChar

/-- The test `save_choice in ['yes', 'y']` applied to
`input().strip().lower()`. -/
def save_condition (response : List Char) : Bool :=
  pyLower (pyStrip response) == "yes".toList || pyLower (pyStrip response) == "y".toList

/-- `youngs_modulus_{material_key}_{bending_type}.txt`. -/
def report_filename (material_key : String) (bending_type : ℕ) : String :=
  "youngs_modulus_" ++ material_key ++ "_" ++ toString bending_type ++ ".txt"

/-- The tail of `main`: the report file (named by `report_filename`) is
written iff `save_condition` accepts the response; otherwise no file is
created and execution falls through to the closing message. -/
def main_save_step (material_key : String) (bending_type : ℕ)
    (response : List Char) : Option String :=
  if save_condition response then some (report_filename material_key bending_type)
  else none

/-! ## Helper lemmas -/

theorem pyDiv_of_ne (a b : ℚ) (hb : b ≠ 0) : pyDiv a b = some (a / b) := by
  simp [pyDiv, hb]

theorem uniform_moduli_of_all_zero (L B W : ℚ) (rs : List Reading)
    (h : ∀ r ∈ rs, r.depression = 0) : uniform_moduli L B W rs = some [] := by
  induction rs with
  | nil => rfl
  | cons r rs ih =>
    have h0 : r.depression = 0 := h r (List.mem_cons_self r rs)
    rw [uniform_moduli, if_neg (by simp [h0])]
    exact ih fun x hx => h x (List.mem_cons_of_mem r hx)

theorem nonuniform_moduli_of_all_zero (L B W : ℚ) (rs : List Reading)
    (h : ∀ r ∈ rs, r.depression = 0) : nonuniform_moduli L B W rs = some [] := by
  induction rs with
  | nil => rfl
  | cons r rs ih =>
    have h0 : r.depression = 0 := h r (List.mem_cons_self r rs)
    rw [nonuniform_moduli, if_neg (by simp [h0])]
    exact ih fun x hx => h x (List.mem_cons_of_mem r hx)

theorem uniform_reading_modulus_eq (L B W : ℚ) (hL : L ≠ 0) (hB : B ≠ 0) (hW : W ≠ 0)
    (r : Reading) (hd : r.depression ≠ 0) :
    uniform_reading_modulus L B W r = some (specUniformY L B W r) := by
  have hI : calculate_moment_of_inertia B W ≠ 0 := by
    rw [calculate_moment_of_inertia]
    exact div_ne_zero (mul_ne_zero hB (pow_ne_zero 3 hW)) (by norm_num)
  have h1 : L / 100 ≠ 0 := div_ne_zero hL (by norm_num)
  have h2 : (384:ℚ) * (calculate_moment_of_inertia B W / 100000000) * |r.depression / 100| ≠ 0 :=
    mul_ne_zero (mul_ne_zero (by norm_num) (div_ne_zero hI (by norm_num)))
      (abs_ne_zero.mpr (div_ne_zero hd (by norm_num)))
  simp only [uniform_reading_modulus, specUniformY, pyDiv_of_ne _ _ h1, pyDiv_of_ne _ _ h2,
    Option.some_bind, Option.map_some']

theorem nonuniform_reading_modulus_eq (L B W : ℚ) (hB : B ≠ 0) (hW : W ≠ 0)
    (r : Reading) (hd : r.depression ≠ 0) :
    nonuniform_reading_modulus L B W r = some (specPointY L B W r) := by
  have hI : calculate_moment_of_inertia B W ≠ 0 := by
    rw [calculate_moment_of_inertia]
    exact div_ne_zero (mul_ne_zero hB (pow_ne_zero 3 hW)) (by norm_num)
  have h2 : (48:ℚ) * (calculate_moment_of_inertia B W / 100000000) * |r.depression / 100| ≠ 0 :=
    mul_ne_zero (mul_ne_zero (by norm_num) (div_ne_zero hI (by norm_num)))
      (abs_ne_zero.mpr (div_ne_zero hd (by norm_num)))
  simp only [nonuniform_reading_modulus, specPointY, pyDiv_of_ne _ _ h2, Option.map_some']

theorem uniform_moduli_eq (L B W : ℚ) (hL : L ≠ 0) (hB : B ≠ 0) (hW : W ≠ 0)
    (rs : List Reading) :
    uniform_moduli L B W rs = some ((nonzeroDeflection rs).map (specUniformY L B W)) := by
  induction rs with
  | nil => rfl
  | cons r rs ih =>
    by_cases hd : r.depression = 0
    · rw [uniform_moduli, if_neg (by simp [hd]), ih]
      simp [nonzeroDeflection, hd]
    · rw [uniform_moduli, if_pos (by simp [hd]),
        uniform_reading_modulus_eq L B W hL hB hW r hd, ih]
      simp [nonzeroDeflection, hd]

theorem nonuniform_moduli_eq (L B W : ℚ) (hB : B ≠ 0) (hW : W ≠ 0)
    (rs : List Reading) :
    nonuniform_moduli L B W rs = some ((nonzeroDeflection rs).map (specPointY L B W)) := by
  induction rs with
  | nil => rfl
  | cons r rs ih =>
    by_cases hd : r.depression = 0
    · rw [nonuniform_moduli, if_neg (by simp [hd]), ih]
      simp [nonzeroDeflection, hd]
    · rw [nonuniform_moduli, if_pos (by simp [hd]),
        nonuniform_reading_modulus_eq L B W hB hW r hd, ih]
      simp [nonzeroDeflection, hd]

/-! ## Claim theorems (first group) -/

/-- **C2**: for positive geometry both modulus computations raise no
exception, readings with zero deflection contribute nothing, and the result
is the arithmetic mean of the per-reading moduli of exactly the readings
with nonzero deflection. -/
theorem zero_deflection_readings_skipped (L B W : ℚ) (hL : 0 < L) (hB : 0 < B) (hW : 0 < W)
    (rs : List Reading) :
    calculate_youngs_modulus_uniform L B W rs
      = some (average ((nonzeroDeflection rs).map (specUniformY L B W))) ∧
    calculate_youngs_modulus_nonuniform L B W rs
      = some (average ((nonzeroDeflection rs).map (specPointY L B W))) := by
  rw [calculate_youngs_modulus_uniform, uniform_moduli_eq L B W hL.ne' hB.ne' hW.ne' rs,
      calculate_youngs_modulus_nonuniform, nonuniform_moduli_eq L B W hB.ne' hW.ne' rs]
  exact ⟨by simp [average], by simp [average]⟩

/-- Witness for C2: one nonzero-deflection and one zero-deflection reading. -/
theorem zero_deflection_readings_skipped_witness :
    (0:ℚ) < 100 ∧
    calculate_youngs_modulus_uniform 100 2 (1/2) [⟨1, 50, 1/10⟩, ⟨2, 100, 0⟩]
      = some (average ((nonzeroDeflection [⟨1, 50, 1/10⟩, ⟨2, 100, 0⟩]).map
          (specUniformY 100 2 (1/2)))) :=
  ⟨by norm_num,
   (zero_deflection_readings_skipped 100 2 (1/2) (by norm_num) (by norm_num) (by norm_num) _).1⟩

/-- **C3** counterexample: at the claim's own example (length 100 cm,
breadth 2 cm, thickness 0.5 cm, one reading of 50 g with deflection 0.1 cm)
the computation returns exactly 981/32 = 30.65625 GPa, which differs from
30.70 GPa by 7/160 = 0.04375 > 1/100 — not "30.70 within floating-point
tolerance". -/
theorem uniform_example_not_thirty_point_seven :
    calculate_youngs_modulus_uniform 100 2 (1/2) [⟨1, 50, 1/10⟩] = some (981/32) ∧
    ¬ (|(981:ℚ)/32 - 307/10| < 1/100) := by
  constructor
  · norm_num [calculate_youngs_modulus_uniform, uniform_moduli, uniform_reading_modulus, pyDiv,
      calculate_moment_of_inertia, g_accel, abs_of_nonneg]
  · norm_num [abs_sub_comm, abs_of_nonneg]

/-- **C3** (amended): the uniform-bending result is the arithmetic mean of
the per-reading values of `Y = 5·w·length_m⁴/(384·I_m4·|deflection_m|)/1e9`
over the readings with nonzero deflection, and at the spec's example input
the result is exactly 981/32 = 30.65625 GPa (≈ 30.66, i.e. 30.7 at one
decimal place, not 30.70). -/
theorem uniform_modulus_formula_and_example (L B W : ℚ) (hL : 0 < L) (hB : 0 < B) (hW : 0 < W)
    (rs : List Reading) :
    calculate_youngs_modulus_uniform L B W rs
      = some (average ((nonzeroDeflection rs).map (specUniformY L B W))) ∧
    calculate_youngs_modulus_uniform 100 2 (1/2) [⟨1, 50, 1/10⟩] = some (981/32) := by
  constructor
  · rw [calculate_youngs_modulus_uniform, uniform_moduli_eq L B W hL.ne' hB.ne' hW.ne' rs]
    simp [average]
  · norm_num [calculate_youngs_modulus_uniform, uniform_moduli, uniform_reading_modulus, pyDiv,
      calculate_moment_of_inertia, g_accel, abs_of_nonneg]

/-- Witness for the amended C3 at the spec's example geometry. -/
theorem uniform_modulus_formula_and_example_witness :
    calculate_youngs_modulus_uniform 100 2 (1/2) [⟨1, 50, 1/10⟩]
      = some (average ((nonzeroDeflection [⟨1, 50, 1/10⟩]).map (specUniformY 100 2 (1/2)))) :=
  (uniform_modulus_formula_and_example 100 2 (1/2) (by norm_num) (by norm_num) (by norm_num)
    [⟨1, 50, 1/10⟩]).1

/-- **C1** (code-bug exhibit). At a material entry with reference modulus 0,
the percentage-difference line is correctly guarded (`none`: not displayed,
no exception), but the analysis verdict of `display_results` divides by the
reference modulus without a guard and dies with `ZeroDivisionError`
(`analysis_verdict … = none`), so the rendering as a whole performs a
division by a zero reference, contrary to the claim. For the 13 catalog
entries the reference modulus is nonzero, so the bug is latent. -/
theorem verdict_division_unguarded_at_zero_reference :
    percent_difference_display 100 0 = none ∧
    analysis_verdict 100 0 = none ∧
    display_comparison 100 0 = none ∧
    MATERIAL_DATABASE.all (fun p => decide (p.2.youngs_modulus ≠ 0)) = true :=
  ⟨by simp [percent_difference_display], by simp [analysis_verdict, pyDiv],
   by simp [display_comparison, analysis_verdict, pyDiv], by norm_num [MATERIAL_DATABASE]⟩

/-- **C4**: if every reading has zero deflection, both modulus computations
return exactly 0 GPa (`some 0`: no exception is raised), for any geometry. -/
theorem all_zero_deflections_average_zero (L B W : ℚ) (rs : List Reading)
    (h : ∀ r ∈ rs, r.depression = 0) :
    calculate_youngs_modulus_uniform L B W rs = some 0 ∧
    calculate_youngs_modulus_nonuniform L B W rs = some 0 := by
  rw [calculate_youngs_modulus_uniform, uniform_moduli_of_all_zero L B W rs h,
      calculate_youngs_modulus_nonuniform, nonuniform_moduli_of_all_zero L B W rs h]
  simp

/-- Witness for C4 at two all-zero readings. -/
theorem all_zero_deflections_average_zero_witness :
    calculate_youngs_modulus_uniform 100 2 (1/2) [⟨1, 10, 0⟩, ⟨2, 20, 0⟩] = some 0 ∧
    calculate_youngs_modulus_nonuniform 100 2 (1/2) [⟨1, 10, 0⟩, ⟨2, 20, 0⟩] = some 0 :=
  all_zero_deflections_average_zero 100 2 (1/2) _ (by intro r hr; fin_cases hr <;> rfl)

/-- **C5**: for a nonzero reference the verdict is "consistent with expected
values" (`some true`) iff `|calculated − reference| / reference < 0.20`
strictly, and at the exact boundary `calculated = 168`, `reference = 210`
(ratio exactly 0.20) the verdict is "differs significantly" (`some false`). -/
theorem analysis_verdict_strict_boundary (c r : ℚ) (hr : r ≠ 0) :
    (analysis_verdict c r = some true ↔ |c - r| / r < 1/5) ∧
    analysis_verdict 168 210 = some false :=
  ⟨by simp [analysis_verdict, pyDiv, hr], by norm_num [analysis_verdict, pyDiv]⟩

/-- Witness for C5 at `calculated = 100`, `reference = 210`. -/
theorem analysis_verdict_strict_boundary_witness :
    (210:ℚ) ≠ 0 ∧ (analysis_verdict 100 210 = some true ↔ |(100:ℚ) - 210| / 210 < 1/5) :=
  ⟨by norm_num, (analysis_verdict_strict_boundary 100 210 (by norm_num)).1⟩

/-- **C6**: for a 1-based index `i ∈ [1, 13]` the material lookup returns
the `i`-th entry of the (static, insertion-ordered) catalog list, in
particular index 1 returns the first-inserted entry `iron`; every index
outside `[1, 13]` — in particular 14 — is rejected with no entry returned. -/
theorem get_material_choice_one_based (i : ℤ) (h1 : 1 ≤ i) (h2 : i ≤ 13) :
    get_material_choice i = MATERIAL_DATABASE.get? (i - 1).toNat ∧
    (get_material_choice i).isSome = true ∧
    get_material_choice 1 = some ("iron", ⟨"Iron", 210, 787/100⟩) ∧
    get_material_choice 14 = none ∧
    (∀ j : ℤ, j < 1 ∨ 13 < j → get_material_choice j = none) := by
  have hlen : MATERIAL_DATABASE.length = 13 := rfl
  have hout : ∀ j : ℤ, j < 1 ∨ 13 < j → get_material_choice j = none := by
    intro j hj
    rw [get_material_choice, if_neg]
    rw [hlen]
    push_cast
    omega
  have hget : get_material_choice i = MATERIAL_DATABASE.get? (i - 1).toNat := by
    rw [get_material_choice, if_pos ⟨h1, by rw [hlen]; exact_mod_cast h2⟩]
  refine ⟨hget, ?_, rfl, hout 14 (by omega), hout⟩
  rw [hget]
  have hn : (i - 1).toNat < MATERIAL_DATABASE.length := by rw [hlen]; omega
  rw [List.get?_eq_get hn]
  rfl

/-- Witness for C6 at index 2. -/
theorem get_material_choice_one_based_witness :
    get_material_choice 2 = MATERIAL_DATABASE.get? ((2:ℤ) - 1).toNat ∧
    (get_material_choice 2).isSome = true :=
  ⟨(get_material_choice_one_based 2 (by norm_num) (by norm_num)).1,
   (get_material_choice_one_based 2 (by norm_num) (by norm_num)).2.1⟩

theorem uniform_reading_modulus_neg (L B W : ℚ) (r : Reading) :
    uniform_reading_modulus L B W (negate_deflection r) = uniform_reading_modulus L B W r := by
  simp [uniform_reading_modulus, negate_deflection, neg_div, abs_neg]

theorem nonuniform_reading_modulus_neg (L B W : ℚ) (r : Reading) :
    nonuniform_reading_modulus L B W (negate_deflection r)
      = nonuniform_reading_modulus L B W r := by
  simp [nonuniform_reading_modulus, negate_deflection, neg_div, abs_neg]

theorem uniform_moduli_neg (L B W : ℚ) (rs : List Reading) :
    uniform_moduli L B W (rs.map negate_deflection) = uniform_moduli L B W rs := by
  induction rs with
  | nil => rfl
  | cons r rs ih =>
    simp only [List.map_cons, uniform_moduli]
    have hg : ((negate_deflection r).depression / 100 ≠ 0) ↔ (r.depression / 100 ≠ 0) := by
      simp [negate_deflection, neg_div]
    by_cases hd : r.depression / 100 ≠ 0
    · rw [if_pos (hg.mpr hd), if_pos hd, uniform_reading_modulus_neg, ih]
    · rw [if_neg (fun h => hd (hg.mp h)), if_neg hd, ih]

theorem nonuniform_moduli_neg (L B W : ℚ) (rs : List Reading) :
    nonuniform_moduli L B W (rs.map negate_deflection) = nonuniform_moduli L B W rs := by
  induction rs with
  | nil => rfl
  | cons r rs ih =>
    simp only [List.map_cons, nonuniform_moduli]
    have hg : ((negate_deflection r).depression / 100 ≠ 0) ↔ (r.depression / 100 ≠ 0) := by
      simp [negate_deflection, neg_div]
    by_cases hd : r.depression / 100 ≠ 0
    · rw [if_pos (hg.mpr hd), if_pos hd, nonuniform_reading_modulus_neg, ih]
    · rw [if_neg (fun h => hd (hg.mp h)), if_neg hd, ih]

/-- **C8**: negating every reading's deflection leaves both modulus
computations unchanged (the modulus depends on deflections only through
their absolute values), while the readings-table row of `display_results`
carries the signed deflection through unchanged. -/
theorem modulus_sign_invariance (L B W : ℚ) (rs : List Reading) :
    calculate_youngs_modulus_uniform L B W (rs.map negate_deflection)
      = calculate_youngs_modulus_uniform L B W rs ∧
    calculate_youngs_modulus_nonuniform L B W (rs.map negate_deflection)
      = calculate_youngs_modulus_nonuniform L B W rs ∧
    (∀ (bt : ℕ) (r : Reading) (row : ℕ × ℚ × ℚ × ℚ),
      display_row bt L B W r = some row → row.2.2.1 = r.depression) := by
  refine ⟨?_, ?_, ?_⟩
  · rw [calculate_youngs_modulus_uniform, calculate_youngs_modulus_uniform, uniform_moduli_neg]
  · rw [calculate_youngs_modulus_nonuniform, calculate_youngs_modulus_nonuniform,
      nonuniform_moduli_neg]
  · intro bt r row h
    simp only [display_row] at h
    split at h
    · rw [Option.map_eq_some'] at h
      obtain ⟨Y, -, hrow⟩ := h
      rw [← hrow]
    · injection h with h
      rw [← h]

/-- Witness for C8's display part: a zero-deflection row keeps its signed
deflection. -/
theorem modulus_sign_invariance_witness :
    display_row 2 100 2 (1/2) ⟨1, 10, 0⟩ = some (1, 10, 0, 0) ∧
    ((1:ℕ), (10:ℚ), (0:ℚ), (0:ℚ)).2.2.1 = (0:ℚ) :=
  ⟨by simp [display_row],
   (modulus_sign_invariance 100 2 (1/2) []).2.2 2 ⟨1, 10, 0⟩ (1, 10, 0, 0)
     (by simp [display_row])⟩

theorem sum_map_mul (c : ℚ) (l : List ℚ) : (l.map fun x => c * x).sum = c * l.sum := by
  induction l with
  | nil => simp
  | cons a l ih => simp [ih, mul_add]

theorem average_map_mul (c : ℚ) (l : List ℚ) :
    average (l.map fun x => c * x) = c * average l := by
  rcases eq_or_ne l [] with h | h
  · simp [h, average]
  · rw [average, average, if_neg (by simp [h]), if_neg h, sum_map_mul, List.length_map,
      mul_div_assoc]

theorem specUniformY_eq_five_eighths (L B W : ℚ) (hL : L ≠ 0) (hB : B ≠ 0) (hW : W ≠ 0)
    (r : Reading) (hd : r.depression ≠ 0) :
    specUniformY L B W r = 5/8 * specPointY L B W r := by
  have h100 : |(100:ℚ)| = 100 := by norm_num
  simp only [specUniformY, specPointY, calculate_moment_of_inertia, abs_div, h100]
  have habs : |r.depression| ≠ 0 := abs_ne_zero.mpr hd
  field_simp
  ring

/-- **C9**: for positive geometry the uniform-bending result is exactly 5/8
of the point-load result on the same readings (per included reading the two
formulas differ by the factor 5/8, the same readings are included, and the
factor passes through the average). -/
theorem uniform_five_eighths_point (L B W : ℚ) (hL : 0 < L) (hB : 0 < B) (hW : 0 < W)
    (rs : List Reading) :
    calculate_youngs_modulus_uniform L B W rs
      = (calculate_youngs_modulus_nonuniform L B W rs).map (fun y => 5/8 * y) ∧
    (∀ r : Reading, r.depression ≠ 0 →
      specUniformY L B W r = 5/8 * specPointY L B W r) := by
  refine ⟨?_, fun r hd => specUniformY_eq_five_eighths L B W hL.ne' hB.ne' hW.ne' r hd⟩
  rw [calculate_youngs_modulus_uniform, uniform_moduli_eq L B W hL.ne' hB.ne' hW.ne' rs,
      calculate_youngs_modulus_nonuniform, nonuniform_moduli_eq L B W hB.ne' hW.ne' rs]
  have hmap : (nonzeroDeflection rs).map (specUniformY L B W)
      = ((nonzeroDeflection rs).map (specPointY L B W)).map fun y => 5/8 * y := by
    rw [List.map_map]
    apply List.map_congr_left
    intro r hr
    have hd : r.depression ≠ 0 := by
      have hm := List.mem_filter.mp hr
      simpa using hm.2
    exact specUniformY_eq_five_eighths L B W hL.ne' hB.ne' hW.ne' r hd
  rw [Option.map_some']
  congr 1
  rw [hmap]
  exact average_map_mul (5/8) ((nonzeroDeflection rs).map (specPointY L B W))

/-- Witness for C9 at the spec's example input. -/
theorem uniform_five_eighths_point_witness :
    calculate_youngs_modulus_uniform 100 2 (1/2) [⟨1, 50, 1/10⟩]
      = (calculate_youngs_modulus_nonuniform 100 2 (1/2) [⟨1, 50, 1/10⟩]).map
          (fun y => 5/8 * y) :=
  (uniform_five_eighths_point 100 2 (1/2) (by norm_num) (by norm_num) (by norm_num)
    [⟨1, 50, 1/10⟩]).1

/-- **C10**: the report file is written exactly when the operator's
response, stripped of surrounding whitespace and lowercased, is "yes" or
"y"; in particular "YES", " y " and "Yes" save, while "no", the empty
response and "maybe" create no file. -/
theorem save_iff_yes_or_y (k : String) (bt : ℕ) (cs : List Char) :
    ((main_save_step k bt cs).isSome = true ↔
      pyLower (pyStrip cs) = "yes".toList ∨ pyLower (pyStrip cs) = "y".toList) ∧
    (main_save_step k bt "YES".toList).isSome = true ∧
    (main_save_step k bt " y ".toList).isSome = true ∧
    (main_save_step k bt "Yes".toList).isSome = true ∧
    main_save_step k bt "no".toList = none ∧
    main_save_step k bt "".toList = none ∧
    main_save_step k bt "maybe".toList = none := by
  have hiff : ∀ s : List Char, (main_save_step k bt s).isSome = true ↔
      pyLower (pyStrip s) = "yes".toList ∨ pyLower (pyStrip s) = "y".toList := by
    intro s
    have hcond : save_condition s = true ↔
        pyLower (pyStrip s) = "yes".toList ∨ pyLower (pyStrip s) = "y".toList := by
      simp [save_condition]
    rw [main_save_step]
    by_cases h : save_condition s = true
    · rw [if_pos h]
      simpa using hcond.mp h
    · rw [if_neg h]
      simp only [Option.isSome_none, Bool.false_eq_true, false_iff]
      exact fun hor => h (hcond.mpr hor)
  refine ⟨hiff cs, ?_, ?_, ?_, ?_, ?_, ?_⟩
  · rw [main_save_step, if_pos (by decide)]
    rfl
  · rw [main_save_step, if_pos (by decide)]
    rfl
  · rw [main_save_step, if_pos (by decide)]
    rfl
  · rw [main_save_step, if_neg (by decide)]
  · rw [main_save_step, if_neg (by decide)]
  · rw [main_save_step, if_neg (by decide)]

/-! ## Round-trip of the file report's reading lines (C7) -/

theorem digitChar_toNat {d : ℕ} (h : d < 10) : (digitChar d).toNat = 48 + d := by
  interval_cases d <;> decide

theorem charVal_digitChar {d : ℕ} (h : d < 10) : charVal (digitChar d) = d := by
  rw [charVal, digitChar_toNat h]
  omega

theorem parseNat_natChars (n : ℕ) : parseNat (natChars n) = n := by
  rw [parseNat, natChars, List.map_reverse, List.reverse_reverse, List.map_map]
  have h1 : ∀ d ∈ Nat.digits 10 n, (charVal ∘ digitChar) d = id d := by
    intro d hd
    simpa using charVal_digitChar (Nat.digits_lt_base (by norm_num) hd)
  rw [List.map_congr_left h1, List.map_id]
  exact Nat.ofDigits_digits 10 n

theorem parseNat_printNat (n : ℕ) : parseNat (printNat n) = n := by
  rw [printNat]
  by_cases h : n = 0
  · rw [if_pos h, h]
    decide
  · rw [if_neg h]
    exact parseNat_natChars n

theorem printNat_toNat_bounds (n : ℕ) : ∀ c ∈ printNat n, 48 ≤ c.toNat ∧ c.toNat ≤ 57 := by
  intro c hc
  rw [printNat] at hc
  by_cases h : n = 0
  · rw [if_pos h] at hc
    simp at hc
    rw [hc]
    decide
  · rw [if_neg h, natChars, List.mem_reverse] at hc
    obtain ⟨d, hd, hcd⟩ := List.mem_map.mp hc
    have hlt : d < 10 := Nat.digits_lt_base (by norm_num) hd
    rw [← hcd, digitChar_toNat hlt]
    omega

theorem printNat_ne_nil (n : ℕ) : printNat n ≠ [] := by
  rw [printNat]
  by_cases h : n = 0
  · rw [if_pos h]
    simp
  · rw [if_neg h, natChars]
    simp [Nat.digits_ne_nil_iff_ne_zero, h]

theorem mem_of_head_some {α : Type} {l : List α} {a : α} (h : l.head? = some a) : a ∈ l := by
  cases l with
  | nil => simp at h
  | cons b t =>
    rw [List.head?_cons, Option.some_inj] at h
    rw [← h]
    exact List.mem_cons_self b t

theorem printNat_head_ne_minus (n : ℕ) : ¬ (printNat n).head? = some '-' := by
  intro h
  have hb := printNat_toNat_bounds n _ (mem_of_head_some h)
  revert hb
  decide

theorem parseInt_printInt (z : ℤ) : parseInt (printInt z) = z := by
  rw [printInt]
  by_cases hz : z < 0
  · have hh : ('-' :: printNat z.natAbs).head? = some '-' := rfl
    rw [if_pos hz, parseInt, if_pos hh, List.tail_cons, parseNat_printNat]
    omega
  · rw [if_neg hz, parseInt, if_neg (printNat_head_ne_minus _), parseNat_printNat]
    omega

theorem printInt_toNat_bounds (z : ℤ) :
    ∀ c ∈ printInt z, c.toNat = 45 ∨ (48 ≤ c.toNat ∧ c.toNat ≤ 57) := by
  intro c hc
  rw [printInt] at hc
  by_cases hz : z < 0
  · rw [if_pos hz] at hc
    rcases List.mem_cons.mp hc with h | h
    · left
      rw [h]
      rfl
    · right
      exact printNat_toNat_bounds _ c h
  · rw [if_neg hz] at hc
    right
    exact printNat_toNat_bounds _ c hc

theorem printRat_toNat_bounds (q : ℚ) : ∀ c ∈ printRat q, 45 ≤ c.toNat ∧ c.toNat ≤ 57 := by
  intro c hc
  rw [printRat] at hc
  have hof : ∀ z : ℤ, c ∈ printInt z → 45 ≤ c.toNat ∧ c.toNat ≤ 57 := by
    intro z hz
    rcases printInt_toNat_bounds z c hz with h | h
    · omega
    · omega
  by_cases hden : q.den = 1
  · rw [if_pos hden] at hc
    exact hof _ hc
  · rw [if_neg hden] at hc
    rcases List.mem_append.mp hc with h | h
    · exact hof _ h
    · rcases List.mem_cons.mp h with h' | h'
      · rw [h']
        decide
      · have := printNat_toNat_bounds _ c h'
        omega

theorem printInt_ne_slash (z : ℤ) : ∀ c ∈ printInt z, (decide (c ≠ '/')) = true := by
  intro c hc
  simp only [decide_eq_true_eq]
  intro he
  have hb := printInt_toNat_bounds z c hc
  rw [he] at hb
  revert hb
  decide

theorem printRat_numChar (q : ℚ) : ∀ c ∈ printRat q, numChar c = true := by
  intro c hc
  have hb := printRat_toNat_bounds q c hc
  rw [numChar]
  rw [Bool.and_eq_true]
  constructor
  · exact decide_eq_true hb.1
  · exact decide_eq_true hb.2

theorem printRat_ne_nil (q : ℚ) : printRat q ≠ [] := by
  rw [printRat]
  by_cases hden : q.den = 1
  · rw [if_pos hden, printInt]
    by_cases hz : q.num < 0
    · rw [if_pos hz]
      simp
    · rw [if_neg hz]
      exact printNat_ne_nil _
  · rw [if_neg hden]
    simp

theorem takeWhile_append_of_all {p : Char → Bool} {l1 l2 : List Char}
    (h : ∀ c ∈ l1, p c = true) : (l1 ++ l2).takeWhile p = l1 ++ l2.takeWhile p := by
  induction l1 with
  | nil => rfl
  | cons b t ih =>
    have hb : p b = true := h b (List.mem_cons_self b t)
    simp only [List.cons_append, List.takeWhile_cons, hb, if_true]
    rw [ih fun c hc => h c (List.mem_cons_of_mem b hc)]

theorem dropWhile_append_of_all {p : Char → Bool} {l1 l2 : List Char}
    (h : ∀ c ∈ l1, p c = true) : (l1 ++ l2).dropWhile p = l2.dropWhile p := by
  induction l1 with
  | nil => rfl
  | cons b t ih =>
    have hb : p b = true := h b (List.mem_cons_self b t)
    simp only [List.cons_append, List.dropWhile_cons, hb, if_true]
    exact ih fun c hc => h c (List.mem_cons_of_mem b hc)

theorem takeWhile_cons_of_neg {p : Char → Bool} {l : List Char} {a : Char}
    (h : p a = false) : (a :: l).takeWhile p = [] := by
  simp [List.takeWhile_cons, h]

theorem dropWhile_cons_of_neg {p : Char → Bool} {l : List Char} {a : Char}
    (h : p a = false) : (a :: l).dropWhile p = a :: l := by
  simp [List.dropWhile_cons, h]

theorem dropWhile_cons_of_pos {p : Char → Bool} {l : List Char} {a : Char}
    (h : p a = true) : (a :: l).dropWhile p = l.dropWhile p := by
  simp [List.dropWhile_cons, h]

theorem parseRat_printRat (q : ℚ) : parseRat (printRat q) = q := by
  rw [printRat]
  by_cases hden : q.den = 1
  · rw [if_pos hden]
    rw [parseRat]
    have ht : (printInt q.num).takeWhile (fun c => decide (c ≠ '/')) = printInt q.num := by
      have h0 := @takeWhile_append_of_all (fun c => decide (c ≠ '/')) (printInt q.num) []
        (printInt_ne_slash q.num)
      simpa using h0
    have hd : (printInt q.num).dropWhile (fun c => decide (c ≠ '/')) = [] := by
      have h0 := @dropWhile_append_of_all (fun c => decide (c ≠ '/')) (printInt q.num) []
        (printInt_ne_slash q.num)
      simpa using h0
    rw [ht, hd]
    simp only [List.tail_nil]
    simp only [if_true]
    rw [parseInt_printInt]
    conv_rhs => rw [← Rat.num_div_den q]
    rw [hden]
    norm_num
  · rw [if_neg hden, parseRat]
    have hslash : (decide ('/' ≠ '/')) = false := by decide
    have ht : (printInt q.num ++ '/' :: printNat q.den).takeWhile (fun c => decide (c ≠ '/'))
        = printInt q.num := by
      rw [takeWhile_append_of_all (printInt_ne_slash q.num), takeWhile_cons_of_neg hslash,
        List.append_nil]
    have hd : (printInt q.num ++ '/' :: printNat q.den).dropWhile (fun c => decide (c ≠ '/'))
        = '/' :: printNat q.den := by
      rw [dropWhile_append_of_all (printInt_ne_slash q.num), dropWhile_cons_of_neg hslash]
    rw [ht, hd, List.tail_cons, if_neg (printNat_ne_nil q.den), parseInt_printInt,
      parseNat_printNat]
    exact Rat.num_div_den q

theorem printNat_ne_eq_sign (n : ℕ) : ∀ c ∈ printNat n, (decide (c ≠ '=')) = true := by
  intro c hc
  simp only [decide_eq_true_eq]
  intro he
  have hb := printNat_toNat_bounds n c hc
  rw [he] at hb
  revert hb
  decide

theorem parse_render_reading_line (r : Reading) :
    parse_reading_line (render_reading_line r) = some (r.weight, r.depression) := by
  have h1 : ": Weight=".toList = ": Weight".toList ++ ['='] := by decide
  have h2 : "g, Depression=".toList = 'g' :: (", Depression".toList ++ ['=']) := by decide
  have h3 : "cm".toList = ['c', 'm'] := by decide
  have hA : ∀ c ∈ "  ".toList, (decide (c ≠ '=')) = true := by decide
  have hw : ∀ c ∈ ": Weight".toList, (decide (c ≠ '=')) = true := by decide
  have hdep : ∀ c ∈ ", Depression".toList, (decide (c ≠ '=')) = true := by decide
  have hN : ∀ c ∈ printNat r.reading_num, (decide (c ≠ '=')) = true := printNat_ne_eq_sign _
  have heq : (decide ('=' ≠ '=')) = false := by decide
  have hgp : (decide ('g' ≠ '=')) = true := by decide
  have hgn : numChar 'g' = false := by decide
  have hcn : numChar 'c' = false := by decide
  rw [render_reading_line, h1, h2, h3]
  simp only [List.append_assoc, List.cons_append, List.nil_append]
  rw [parse_reading_line]
  simp only [dropWhile_append_of_all hA, dropWhile_append_of_all hN,
    dropWhile_append_of_all hw, dropWhile_append_of_all hdep,
    dropWhile_append_of_all (printRat_numChar r.weight),
    takeWhile_append_of_all (printRat_numChar r.weight),
    takeWhile_append_of_all (printRat_numChar r.depression),
    dropWhile_cons_of_neg (p := fun c => decide (c ≠ '=')) heq,
    dropWhile_cons_of_pos (p := fun c => decide (c ≠ '=')) hgp,
    dropWhile_cons_of_neg (p := numChar) hgn,
    takeWhile_cons_of_neg (p := numChar) hgn, takeWhile_cons_of_neg (p := numChar) hcn,
    List.tail_cons, List.append_nil]
  rw [if_neg]
  · rw [parseRat_printRat, parseRat_printRat]
  · rintro (h | h)
    · exact printRat_ne_nil _ h
    · exact printRat_ne_nil _ h

/-- **C7**: rendering the per-reading lines of the abbreviated file report
and re-parsing the weight/deflection numerals recovers every reading's
weight and deflection exactly and in order. -/
theorem file_report_roundtrip (rs : List Reading) :
    (render_readings rs).map parse_reading_line
      = rs.map (fun r => some (r.weight, r.depression)) ∧
    (∀ r : Reading,
      parse_reading_line (render_reading_line r) = some (r.weight, r.depression)) := by
  refine ⟨?_, parse_render_reading_line⟩
  rw [render_readings, List.map_map]
  exact List.map_congr_left fun r _ => parse_render_reading_line r

end YoungsModulus
